import Mathlib

/-!
Verification of `jcapi`, the JumpCloud API client.

A shallow embedding of `jcapi.go` (the JumpCloud API client) and of
`examples/ExportSystemUsersToCSV/exportSystemUsersToCSV.go`, with the
properties of the helpers, the dispatcher `JCAPI.do` and the CSV export.

Conventions of the embedding
* a Go `string` is a Lean `String` (well-formed UTF-8 text); `[]byte(s)` is the
  list of the UTF-8 bytes of `s`;
* a Go `interface{}` value is a `GoAny`: the dynamic type together with the value;
* a Go slice is a `List`; where the code tells a nil slice from an empty one
  (`s != nil`) the slice is an `Option (List _)` and `none` is the nil slice;
* a run-time panic (a failed type assertion) is the `none` of an `Option`;
* an `error` / `JCError` result is an `Option String`: `none` is the nil error,
  `some m` an error whose `Error()` text is `m`.
-/

namespace jcapi

/-! ## Data model -/

/-- The Go type `uint16`. -/
abbrev Uint16 := Fin 65536

/-- A value of Go type `interface{}`: its dynamic type and its value. The first six
constructors are the dynamic types `encoding/json` stores when it decodes into an
`interface{}`; `uint16` is the type `getUint16OrNil` looks for; `other` stands for a
value of any further dynamic type (named by `typeName`, e.g. `int` or a defined type). -/
inductive GoAny where
  | nil : GoAny
  | bool (b : Bool) : GoAny
  | float64 (bits : Nat) : GoAny
  | string (s : String) : GoAny
  | slice (elems : List GoAny) : GoAny
  | map (entries : List (String × GoAny)) : GoAny
  | uint16 (n : Uint16) : GoAny
  | other (typeName : String) (repr : String) : GoAny

/-- The type `JCOp` (`type JCOp uint8`). -/
abbrev JCOp := Fin 256

/-- The constant `read = 1`. -/
def read : JCOp := 1
/-- The constant `insert = 2`. -/
def insert : JCOp := 2
/-- The constant `update = 3`. -/
def update : JCOp := 3
/-- The constant `delete = 4`. -/
def delete : JCOp := 4
/-- The constant `list = 5`. -/
def list : JCOp := 5

/-- The struct `JCAPI`. -/
structure JCAPI where
  ApiKey : String
  UrlBase : String
deriving DecidableEq, Repr

/-! ## JSON fragment builders -/

/-- The function `buildJSONKeyValuePair`. -/
def buildJSONKeyValuePair (key value : String) : String :=
  "\"" ++ key ++ "\":\"" ++ value ++ "\""

/-- The function `buildJSONKeyValueBoolPair`. -/
def buildJSONKeyValueBoolPair (key : String) (value : Bool) : String :=
  if value == true then
    "\"" ++ key ++ "\":\"true\""
  else
    "\"" ++ key ++ "\":\"false\""

/-- The function `mapJCOpToHTTP`: a `switch` on `op` over a `returnVal` that starts as the
empty string. -/
def mapJCOpToHTTP (op : JCOp) : String :=
  let returnVal := ""
  if op = read then "GET"
  else if op = insert then "POST"
  else if op = update then "PUT"
  else if op = delete then "DELETE"
  else if op = list then "LIST"
  else returnVal

/-! ## Interface conversion helpers -/

/-- The function `getStringOrNil`: a type switch with the single case `string`. -/
def getStringOrNil (input : GoAny) : String :=
  let returnVal := ""
  match input with
  | GoAny.string s => s
  | _ => returnVal

/-- The function `getUint16OrNil`: a type switch with the single case `uint16`. -/
def getUint16OrNil (input : GoAny) : Uint16 :=
  let returnVal : Uint16 := 0
  match input with
  | GoAny.uint16 n => n
  | _ => returnVal

/-! ## Text formatting and byte conversion -/

/-- The scan of `fmt.Sprintf` over a format string, for the one verb the formats of this
package use, `%s`, applied to string (or error) operands: the operand's text replaces the
verb unchanged; every other character of the format is copied. A `%s` with no operand
left prints `%!s(MISSING)`, as `fmt` does. -/
def sprintfScan : List Char → List String → List Char
  | [], _ => []
  | [c], _ => [c]
  | c :: d :: rest, args =>
    if c = '%' ∧ d = 's' then
      match args with
      | a :: args2 => a.data ++ sprintfScan rest args2
      | [] => "%!s(MISSING)".data ++ sprintfScan rest []
    else
      c :: sprintfScan (d :: rest) args

/-- The function `fmt.Sprintf` (and the message of `fmt.Errorf`) for `%s` formats. -/
def Sprintf (format : String) (args : List String) : String :=
  String.mk (sprintfScan format.data args)

/-- UTF-8 encoding of one code point, as the bytes of a Go string hold it. -/
def utf8Bytes (c : Char) : List Nat :=
  let v := c.toNat
  if v < 0x80 then [v]
  else if v < 0x800 then [0xC0 + v / 64, 0x80 + v % 64]
  else if v < 0x10000 then [0xE0 + v / 4096, 0x80 + (v / 64) % 64, 0x80 + v % 64]
  else [0xF0 + v / 262144, 0x80 + (v / 4096) % 64, 0x80 + (v / 64) % 64, 0x80 + v % 64]

/-- The conversion `[]byte(s)`. -/
def toBytes (s : String) : List Nat :=
  s.data.flatMap utf8Bytes

/-- The method `JCAPI.emailFilter`. -/
def JCAPI.emailFilter (_jc : JCAPI) (email : String) : List Nat :=
  toBytes (Sprintf "\x7b\"filter\": [\x7b\"email\" : \"%s\"\x7d]\x7d" [email])

/-- The function `buildJSONStringArray`. The slice `s` is `none` when it is nil. The loop
carries `returnVal` and `afterFirst`. -/
def buildJSONStringArray (field : String) (s : Option (List String)) : String :=
  let returnVal := "["
  let returnVal :=
    match s with
    | none => returnVal
    | some vals =>
      (vals.foldl
        (fun (st : String × Bool) val =>
          let returnVal := if st.2 then st.1 ++ "," else st.1
          (returnVal ++ ("\"" ++ val ++ "\""), true))
        (returnVal, false)).1
  let returnVal := returnVal ++ "]"
  "\"" ++ field ++ "\":" ++ returnVal

/-! ## Tags of a user -/

/-- Modelled from the spec: the struct `JCTag` is declared outside `jcapi.go`; it is a
grouping with an identifier and the membership list `SystemUsers` of user identifiers,
the one field `addTags` reads. -/
structure JCTag where
  Id : String
  SystemUsers : List String
deriving DecidableEq, Repr

/-- Modelled from the spec: the struct `JCUser` is declared outside `jcapi.go`; it is a
user record with an identifier `Id` and the derived collection `tags`, the two fields
`addTags` uses. -/
structure JCUser where
  Id : String
  tags : List JCTag
deriving DecidableEq, Repr

/-- The method `JCUser.addTags`: the outer loop over `tags`, the inner loop over
`tag.SystemUsers`, each match appending `tag` to `user.tags`. -/
def JCUser.addTags (user : JCUser) (tags : List JCTag) : JCUser :=
  tags.foldl
    (fun user tag =>
      tag.SystemUsers.foldl
        (fun user systemUser =>
          if systemUser = user.Id then
            { user with tags := user.tags ++ [tag] }
          else
            user)
        user)
    user

/-- The method `JCAPI.extractStringArray`. The type assertion `str.(string)` panics on an
element of another dynamic type: the result is then `none`. -/
def JCAPI.extractStringArray (_jc : JCAPI) (input : List GoAny) : Option (List String) :=
  input.foldlM
    (fun returnVal str =>
      match str with
      | GoAny.string s => some (returnVal ++ [s])
      | _ => none)
    []

/-! ## The dispatcher -/

/-- An `*http.Response` as `do` uses it: the status line text and the outcome of
`ioutil.ReadAll(resp.Body)`, the whole body or a read error. -/
structure Response where
  Status : String
  Body : Except String (List Nat)

/-- The parts of `net/http` and `encoding/json` that `do` calls, over requests of type
`ρ`. `NewRequest` is `http.NewRequest` (it can fail), `HeaderSet` is `req.Header.Set`,
`Do` is `client.Do` of a fresh `http.Client` (it can fail), and `Unmarshal buffer` is
`json.Unmarshal(buffer, &returnVal)` for a nil `returnVal`: the value `returnVal` holds
afterwards and the error. An error is given by its `Error()` text. -/
structure HTTP (ρ : Type) where
  NewRequest : String → String → List Nat → Except String ρ
  HeaderSet : ρ → String → String → ρ
  Do : ρ → Except String Response
  Unmarshal : List Nat → GoAny × Option String

/-- The method `JCAPI.setHeader`. -/
def JCAPI.setHeader {ρ : Type} (net : HTTP ρ) (jc : JCAPI) (req : ρ) : ρ :=
  let req := net.HeaderSet req "Content-Type" "application/json"
  let req := net.HeaderSet req "Accept" "application/json"
  net.HeaderSet req "x-api-key" jc.ApiKey

/-- The method `JCAPI.do`. The result is the pair of the returned value (`GoAny.nil` is
the nil interface value) and the returned `JCError`. The two `dbg` calls only print. -/
def JCAPI.do_ {ρ : Type} (net : HTTP ρ) (jc : JCAPI) (op url : String) (data : List Nat) :
    GoAny × Option String :=
  let returnVal := GoAny.nil
  let fullUrl := jc.UrlBase ++ url
  match net.NewRequest op fullUrl data with
  | Except.error err =>
    (returnVal, some (Sprintf "ERROR: Could not build search request: '%s'" [err]))
  | Except.ok req =>
    let req := jc.setHeader net req
    match net.Do req with
    | Except.error err =>
      (returnVal, some (Sprintf "ERROR: client.Do() failed, err='%s'" [err]))
    | Except.ok resp =>
      if resp.Status ≠ "200 OK" then
        (returnVal, some (Sprintf "JumpCloud HTTP response status='%s'" [resp.Status]))
      else
        match resp.Body with
        | Except.error err =>
          (returnVal, some (Sprintf "ERROR: Could not read the response body, err='%s'" [err]))
        | Except.ok buffer =>
          match net.Unmarshal buffer with
          | (returnVal, some err) =>
            (returnVal, some (Sprintf "ERROR: Could not Unmarshal JSON response, err='%s'" [err]))
          | (returnVal, none) => (returnVal, none)

/-- The values `encoding/json` stores when it decodes into an `interface{}`: nil for
null, a `bool`, a `float64` for every number, a `string`, a `[]interface{}` of such
values, a `map[string]interface{}` of such values. -/
inductive JSONDecoded : GoAny → Prop where
  | null : JSONDecoded GoAny.nil
  | bool (b : Bool) : JSONDecoded (GoAny.bool b)
  | number (bits : Nat) : JSONDecoded (GoAny.float64 bits)
  | string (s : String) : JSONDecoded (GoAny.string s)
  | array (elems : List GoAny) :
      (∀ e, e ∈ elems → JSONDecoded e) → JSONDecoded (GoAny.slice elems)
  | object (entries : List (String × GoAny)) :
      (∀ kv, kv ∈ entries → JSONDecoded kv.2) → JSONDecoded (GoAny.map entries)

/-- The value `w` is `v` itself or occurs inside `v`, at any depth, as an element of a
slice or as a value of a map. -/
inductive Contains : GoAny → GoAny → Prop where
  | self (v : GoAny) : Contains v v
  | elem (elems : List GoAny) (e w : GoAny) :
      e ∈ elems → Contains e w → Contains (GoAny.slice elems) w
  | value (entries : List (String × GoAny)) (kv : String × GoAny) (w : GoAny) :
      kv ∈ entries → Contains kv.2 w → Contains (GoAny.map entries) w

/-! ## The CSV export -/

/-- Modelled from the spec: the struct `JCResponseData` is declared outside the given
sources; `Output` is the multi-line free-text output. -/
structure JCResponseData where
  Output : String
deriving DecidableEq, Repr

/-- Modelled from the spec: the struct `JCResponse` is declared outside the given
sources; `Data` holds the output of the command. -/
structure JCResponse where
  Data : JCResponseData
deriving DecidableEq, Repr

/-- Modelled from the spec: the struct `JCCommandResult` is declared outside the given
sources; a command result has a system identifier, a request timestamp and a response. -/
structure JCCommandResult where
  System : String
  RequestTime : String
  Response : JCResponse
deriving DecidableEq, Repr

/-- The scan of `strings.Split(s, sep)` for a separator of one character: `cur` holds
the characters of the current piece, last first. -/
def splitScan (sep : Char) : List Char → List Char → List String
  | [], cur => [String.mk cur.reverse]
  | c :: cs, cur =>
    if c = sep then
      String.mk cur.reverse :: splitScan sep cs []
    else
      splitScan sep cs (c :: cur)

/-- The function `strings.Split(s, sep)` for a separator of one character. -/
def Split (s : String) (sep : Char) : List String :=
  splitScan sep s.data []

/-- The function `unicode.IsSpace`. -/
def IsSpace (r : Char) : Bool :=
  let n := r.toNat
  if n ≤ 0xFF then
    n = 0x09 ∨ n = 0x0A ∨ n = 0x0B ∨ n = 0x0C ∨ n = 0x0D ∨ n = 0x20 ∨ n = 0x85 ∨ n = 0xA0
  else
    n = 0x1680 ∨ (0x2000 ≤ n ∧ n ≤ 0x200A) ∨ n = 0x2028 ∨ n = 0x2029 ∨ n = 0x202F ∨
      n = 0x205F ∨ n = 0x3000

/-- The function `strings.TrimSpace`: all leading and trailing white space removed. -/
def TrimSpace (s : String) : String :=
  String.mk ((s.data.dropWhile IsSpace).reverse.dropWhile IsSpace).reverse

/-- A `*csv.Writer` over some `io.Writer`, with state `σ`: `Write` gives the state after
the call and the error it returns, `Flush` the state after a flush. -/
structure CSVWriter (σ : Type) where
  Write : σ → List String → σ × Option String
  Flush : σ → σ

/-- The header record of the export. -/
def csvHeader : List String :=
  ["SYSTEM ID", "USERNAME", "JUMPCLOUD USERNAME", "COMMAND REQUEST TIME"]

/-- The inner loop of `writeResultsToCSV` over the lines of one result; a failed `Write`
returns at once with its error. -/
def writeLines {σ : Type} (W : CSVWriter σ) (result : JCCommandResult) :
    List String → σ → σ × Option String
  | [], w => (w, none)
  | line :: rest, w =>
    let line := TrimSpace line
    if line ≠ "" then
      match W.Write w [result.System, line, "", result.RequestTime] with
      | (w, some err) => (w, some err)
      | (w, none) => writeLines W result rest w
    else
      writeLines W result rest w

/-- The outer loop of `writeResultsToCSV` over the results, with the flush after each. -/
def writeResults {σ : Type} (W : CSVWriter σ) : List JCCommandResult → σ → σ × Option String
  | [], w => (w, none)
  | result :: rest, w =>
    let lines := Split result.Response.Data.Output '\n'
    match writeLines W result lines w with
    | (w, some err) => (w, some err)
    | (w, none) => writeResults W rest (W.Flush w)

/-- The function `writeResultsToCSV`: the state of the writer afterwards and the
returned error. -/
def writeResultsToCSV {σ : Type} (W : CSVWriter σ) (results : List JCCommandResult) (w : σ) :
    σ × Option String :=
  match W.Write w csvHeader with
  | (w, some err) => (w, some err)
  | (w, none) => writeResults W results (W.Flush w)

/-- A writer that keeps the records it is given, in order, and never fails. -/
def recordWriter : CSVWriter (List (List String)) where
  Write := fun w record => (w ++ [record], none)
  Flush := fun w => w

/-- The test `fieldNeedsQuotes` of `encoding/csv` for the comma delimiter. -/
def fieldNeedsQuotes (field : String) : Bool :=
  if field = "" then false
  else if field = "\\." then true
  else if field.data.any (fun c => c = '\n' ∨ c = '\r' ∨ c = '"' ∨ c = ',') then true
  else
    match field.data with
    | [] => false
    | r1 :: _ => IsSpace r1

/-- The text `encoding/csv` writes for one record (delimiter comma, `UseCRLF` false): the
fields separated by commas, a field that needs quotes wrapped in double quotes with its
double quotes doubled, then a newline. -/
def csvLine (record : List String) : String :=
  String.intercalate ","
    (record.map fun field =>
      if fieldNeedsQuotes field then
        "\"" ++ String.mk (field.data.flatMap fun c => if c = '"' then ['"', '"'] else [c]) ++ "\""
      else
        field) ++ "\n"

/-- A `csv.Writer` over an in-memory buffer: the state is the text written, no write
fails. -/
def textWriter : CSVWriter String where
  Write := fun w record => (w ++ csvLine record, none)
  Flush := fun w => w

/-- The result of the example of the export. -/
def exampleResult : JCCommandResult :=
  { System := "S1", RequestTime := "2024-01-01T00:00:00Z",
    Response := { Data := { Output := "line1\n\nline2  \n" } } }

/-- The data rows the specification gives for one result: its output split on newlines,
each piece trimmed, the empty ones dropped, and for each remaining line the record of the
system identifier, the line, an empty field and the request time. -/
def rowsOfResult (result : JCCommandResult) : List (List String) :=
  (((Split result.Response.Data.Output '\n').map TrimSpace).filter fun line => line ≠ "").map
    fun line => [result.System, line, "", result.RequestTime]

/-! ## A concrete transport, for instances of the general statements -/

/-- An `*http.Request` reduced to what `do` gives it. -/
structure Request where
  Method : String
  URL : String
  Body : List Nat
  Header : List (String × String)

/-- A transport that builds every request, answers each one with the given status and
body, and decodes the one body `{"n":2}` (to an object whose number is a `float64`,
given by its bit pattern), any other body being an error. -/
def stubNet (status : String) (body : List Nat) : HTTP Request where
  NewRequest := fun method url data =>
    Except.ok { Method := method, URL := url, Body := data, Header := [] }
  HeaderSet := fun req key value => { req with Header := req.Header ++ [(key, value)] }
  Do := fun _ => Except.ok { Status := status, Body := Except.ok body }
  Unmarshal := fun buffer =>
    if buffer = toBytes "\x7b\"n\":2\x7d" then
      (GoAny.map [("n", GoAny.float64 0x4000000000000000)], none)
    else
      (GoAny.nil, some "invalid character")

/-- A client for the instances. -/
def stubClient : JCAPI :=
  { ApiKey := "secret", UrlBase := "https://console.jumpcloud.com/api" }

/-! ## Auxiliary lemmas -/

theorem sprintf_data (format : String) (args : List String) :
    (Sprintf format args).data = sprintfScan format.data args := rfl

theorem sprintf_status (s : String) :
    Sprintf "JumpCloud HTTP response status='%s'" [s] =
      "JumpCloud HTTP response status='" ++ s ++ "'" := by
  apply String.ext
  simp [Sprintf, sprintfScan]

theorem sprintf_emailFilter (email : String) :
    Sprintf "\x7b\"filter\": [\x7b\"email\" : \"%s\"\x7d]\x7d" [email] =
      "\x7b\"filter\": [\x7b\"email\" : \"" ++ email ++ "\"\x7d]\x7d" := by
  apply String.ext
  simp [Sprintf, sprintfScan]

theorem toBytes_append (a b : String) : toBytes (a ++ b) = toBytes a ++ toBytes b := by
  simp [toBytes]

/-- The inner loop of `addTags` for one tag. -/
theorem addTags_inner (tag : JCTag) (members : List String) (user : JCUser) :
    members.foldl
        (fun (user : JCUser) systemUser =>
          if systemUser = user.Id then { user with tags := user.tags ++ [tag] } else user)
        user =
      { user with tags := user.tags ++ List.replicate (members.count user.Id) tag } := by
  induction members generalizing user with
  | nil => simp
  | cons m rest ih =>
    rw [List.foldl_cons, ih]
    by_cases h : m = user.Id
    · subst h
      simp [List.replicate_succ]
    · have h2 : ¬ (m == user.Id) = true := by simpa using h
      simp [h, List.count_cons, h2]

/-- The loop of `extractStringArray` over strings only. -/
theorem extract_loop_strings (strs acc : List String) :
    (strs.map GoAny.string).foldlM
        (fun (returnVal : List String) (str : GoAny) =>
          match str with
          | GoAny.string s => some (returnVal ++ [s])
          | _ => none)
        acc = some (acc ++ strs) := by
  induction strs generalizing acc with
  | nil => simp
  | cons s rest ih => simp [List.foldlM_cons, ih]

/-- The loop of `extractStringArray` over a slice with an element that is no string. -/
theorem extract_loop_fails (input : List GoAny) (acc : List String)
    (h : ∃ x, x ∈ input ∧ ∀ s, x ≠ GoAny.string s) :
    input.foldlM
        (fun (returnVal : List String) (str : GoAny) =>
          match str with
          | GoAny.string s => some (returnVal ++ [s])
          | _ => none)
        acc = none := by
  induction input generalizing acc with
  | nil => obtain ⟨x, hx, _⟩ := h; simp at hx
  | cons y rest ih =>
    obtain ⟨x, hx, hns⟩ := h
    cases y with
    | string s =>
      have hx2 : x ∈ rest := by
        rcases List.mem_cons.mp hx with h1 | h1
        · exact absurd h1 (hns s)
        · exact h1
      simp only [List.foldlM_cons]
      exact ih _ ⟨x, hx2, hns⟩
    | _ => simp [List.foldlM_cons]

/-- The accumulator of `String.intercalate` can be pulled out in front. -/
theorem intercalate_go_append (p acc sep : String) (l : List String) :
    String.intercalate.go (p ++ acc) sep l = p ++ String.intercalate.go acc sep l := by
  induction l generalizing acc with
  | nil => simp [String.intercalate.go]
  | cons a rest ih =>
    simp only [String.intercalate.go]
    rw [String.append_assoc p acc sep, String.append_assoc p (acc ++ sep) a, ih]

/-- The loop of `buildJSONStringArray` once `afterFirst` is set. -/
theorem build_loop_after (vals : List String) (acc : String) :
    (vals.foldl
        (fun (st : String × Bool) val =>
          let returnVal := if st.2 then st.1 ++ "," else st.1
          (returnVal ++ ("\"" ++ val ++ "\""), true))
        (acc, true)).1 =
      String.intercalate.go acc "," (vals.map fun v => "\"" ++ v ++ "\"") := by
  induction vals generalizing acc with
  | nil => simp [String.intercalate.go]
  | cons v rest ih =>
    simp only [List.foldl_cons, List.map_cons, String.intercalate.go]
    exact ih _

/-- The whole loop of `buildJSONStringArray`. -/
theorem build_loop (vals : List String) :
    (vals.foldl
        (fun (st : String × Bool) val =>
          let returnVal := if st.2 then st.1 ++ "," else st.1
          (returnVal ++ ("\"" ++ val ++ "\""), true))
        ("[", false)).1 =
      "[" ++ String.intercalate "," (vals.map fun v => "\"" ++ v ++ "\"") := by
  cases vals with
  | nil => rfl
  | cons v rest =>
    simp only [List.foldl_cons, List.map_cons, String.intercalate]
    have h := build_loop_after rest ("[" ++ ("\"" ++ v ++ "\""))
    simp only [Bool.false_eq_true, if_false] at h ⊢
    rw [h, intercalate_go_append]

/-- The commas of the text `String.intercalate` builds with the separator `,`. -/
theorem intercalate_go_commas (acc : String) (l : List String) :
    (String.intercalate.go acc "," l).data.count ',' =
      acc.data.count ',' + (l.map fun x => x.data.count ',').sum + l.length := by
  induction l generalizing acc with
  | nil => simp [String.intercalate.go]
  | cons a rest ih =>
    simp only [String.intercalate.go]
    rw [ih]
    simp [String.data_append, List.count_append]
    omega

/-- A message built from a format that starts with `E` is no status message. -/
theorem sprintf_error_ne_status (rest : List Char) (args : List String) (s : String) :
    Sprintf (String.mk ('E' :: 'R' :: rest)) args ≠
      "JumpCloud HTTP response status='" ++ s ++ "'" := by
  intro h
  have h2 := congrArg String.data h
  rw [sprintf_data] at h2
  simp [sprintfScan, String.data_append] at h2

/-- A value inside a decoded JSON value is a decoded JSON value. -/
theorem JSONDecoded.of_contains {v w : GoAny} (hc : Contains v w) (hv : JSONDecoded v) :
    JSONDecoded w := by
  induction hc with
  | self v => exact hv
  | elem elems e w he _ ih =>
    cases hv with
    | array _ hall => exact ih (hall e he)
  | value entries kv w hkv _ ih =>
    cases hv with
    | object _ hall => exact ih (hall kv hkv)

/-- On a decoded JSON value `getUint16OrNil` finds no `uint16`. -/
theorem getUint16OrNil_decoded {v : GoAny} (hv : JSONDecoded v) : getUint16OrNil v = 0 := by
  cases hv <;> rfl

/-- The value `do` returns is nil or a value `Unmarshal` produced. -/
theorem do_value {ρ : Type} (net : HTTP ρ) (jc : JCAPI) (op url : String) (data : List Nat) :
    (jc.do_ net op url data).1 = GoAny.nil ∨
      ∃ buffer, (jc.do_ net op url data).1 = (net.Unmarshal buffer).1 := by
  simp only [JCAPI.do_]
  split
  · exact Or.inl rfl
  · split
    · exact Or.inl rfl
    · split
      · exact Or.inl rfl
      · split
        · exact Or.inl rfl
        · rename_i buffer _
          right
          refine ⟨buffer, ?_⟩
          split <;> simp [*]

/-- The inner loop of the export, when it ends without an error: the records of the
lines that are not empty once trimmed have been written, in order. -/
theorem writeLines_records {σ : Type} (W : CSVWriter σ) (recs : σ → List (List String))
    (hW : ∀ w r, (W.Write w r).2 = none → recs (W.Write w r).1 = recs w ++ [r])
    (result : JCCommandResult) (lines : List String) (w : σ)
    (hok : (writeLines W result lines w).2 = none) :
    recs (writeLines W result lines w).1 =
      recs w ++ (((lines.map TrimSpace).filter fun line => line ≠ "").map
        fun line => [result.System, line, "", result.RequestTime]) := by
  induction lines generalizing w with
  | nil => simp [writeLines]
  | cons line rest ih =>
    by_cases hl : TrimSpace line = ""
    · simp only [writeLines, hl, ne_eq, not_true_eq_false, if_false] at hok ⊢
      simpa [hl] using ih w hok
    · have hr := hW w [result.System, TrimSpace line, "", result.RequestTime]
      simp only [writeLines, ne_eq, hl, not_false_eq_true, if_true] at hok ⊢
      rcases hwr : W.Write w [result.System, TrimSpace line, "", result.RequestTime]
        with ⟨w2, err⟩
      rw [hwr] at hok hr
      cases err with
      | some e => simp at hok
      | none =>
        simp only at hok hr ⊢
        rw [ih w2 hok, hr trivial]
        simp [hl]

/-- The inner loop of the export over a writer that never fails returns no error. -/
theorem writeLines_ok {σ : Type} (W : CSVWriter σ) (hS : ∀ w r, (W.Write w r).2 = none)
    (result : JCCommandResult) (lines : List String) (w : σ) :
    (writeLines W result lines w).2 = none := by
  induction lines generalizing w with
  | nil => rfl
  | cons line rest ih =>
    by_cases hl : TrimSpace line = ""
    · simp only [writeLines, hl, ne_eq, not_true_eq_false, if_false]
      exact ih w
    · have hs := hS w [result.System, TrimSpace line, "", result.RequestTime]
      simp only [writeLines, ne_eq, hl, not_false_eq_true, if_true]
      rcases hwr : W.Write w [result.System, TrimSpace line, "", result.RequestTime]
        with ⟨w2, err⟩
      rw [hwr] at hs
      simp only at hs
      subst hs
      exact ih w2

/-- The outer loop of the export, when it ends without an error. -/
theorem writeResults_records {σ : Type} (W : CSVWriter σ) (recs : σ → List (List String))
    (hW : ∀ w r, (W.Write w r).2 = none → recs (W.Write w r).1 = recs w ++ [r])
    (hF : ∀ w, recs (W.Flush w) = recs w)
    (results : List JCCommandResult) (w : σ)
    (hok : (writeResults W results w).2 = none) :
    recs (writeResults W results w).1 = recs w ++ results.flatMap rowsOfResult := by
  induction results generalizing w with
  | nil => simp [writeResults]
  | cons result rest ih =>
    have hr := writeLines_records W recs hW result (Split result.Response.Data.Output '\n') w
    simp only [writeResults] at hok ⊢
    rcases hwl : writeLines W result (Split result.Response.Data.Output '\n') w with ⟨w2, err⟩
    rw [hwl] at hok hr
    cases err with
    | some e => simp at hok
    | none =>
      simp only at hok hr ⊢
      rw [ih (W.Flush w2) hok, hF, hr trivial]
      simp [rowsOfResult, List.flatMap_cons]

/-- The outer loop of the export over a writer that never fails returns no error. -/
theorem writeResults_ok {σ : Type} (W : CSVWriter σ) (hS : ∀ w r, (W.Write w r).2 = none)
    (results : List JCCommandResult) (w : σ) :
    (writeResults W results w).2 = none := by
  induction results generalizing w with
  | nil => rfl
  | cons result rest ih =>
    have hs := writeLines_ok W hS result (Split result.Response.Data.Output '\n') w
    simp only [writeResults]
    rcases hwl : writeLines W result (Split result.Response.Data.Output '\n') w with ⟨w2, err⟩
    rw [hwl] at hs
    simp only at hs
    subst hs
    exact ih (W.Flush w2)

/-! ## The claims -/

/-- C1: `mapJCOpToHTTP` maps read (1) to "GET", insert (2) to "POST", update (3) to
"PUT", delete (4) to "DELETE" and list (5) to "LIST"; the five results are pairwise
distinct; equal arguments give equal results. -/
theorem mapJCOpToHTTP_table :
    (read.val = 1 ∧ insert.val = 2 ∧ update.val = 3 ∧ delete.val = 4 ∧ list.val = 5) ∧
    mapJCOpToHTTP read = "GET" ∧ mapJCOpToHTTP insert = "POST" ∧
    mapJCOpToHTTP update = "PUT" ∧ mapJCOpToHTTP delete = "DELETE" ∧
    mapJCOpToHTTP list = "LIST" ∧
    List.Pairwise (fun a b => a ≠ b)
      [mapJCOpToHTTP read, mapJCOpToHTTP insert, mapJCOpToHTTP update,
        mapJCOpToHTTP delete, mapJCOpToHTTP list] ∧
    (∀ op1 op2 : JCOp, op1 = op2 → mapJCOpToHTTP op1 = mapJCOpToHTTP op2) := by
  refine ⟨by decide, by decide, by decide, by decide, by decide, by decide, by decide, ?_⟩
  intro op1 op2 h
  rw [h]

/-- C3: after `u.addTags(ts)` the tags of the user are the previous tags followed by, for
each tag `t` of `ts` in order, one copy of `t` for each occurrence of the user's
identifier in `t.SystemUsers`; so the number of copies of a tag `t` that are added is the
number of times `t` is in `ts` times the number of times the identifier is in its
membership list (none when it is absent); the identifier is unchanged; and the user "U1"
with no tags and the tags T1 (members U1, U2), T2 (members U3) ends with exactly T1. -/
theorem addTags_spec (user : JCUser) (tags : List JCTag) :
    (user.addTags tags).tags =
      user.tags ++ tags.flatMap (fun t => List.replicate (t.SystemUsers.count user.Id) t) ∧
    (user.addTags tags).Id = user.Id ∧
    (∀ t : JCTag, (user.addTags tags).tags.count t =
      user.tags.count t + tags.count t * t.SystemUsers.count user.Id) ∧
    (∀ t : JCTag, user.Id ∉ t.SystemUsers →
      (user.addTags tags).tags.count t = user.tags.count t) ∧
    (JCUser.addTags { Id := "U1", tags := [] }
        [{ Id := "T1", SystemUsers := ["U1", "U2"] }, { Id := "T2", SystemUsers := ["U3"] }]).tags =
      [{ Id := "T1", SystemUsers := ["U1", "U2"] }] := by
  have key : ∀ (ts : List JCTag) (u : JCUser),
      u.addTags ts =
        { u with tags := u.tags ++
            ts.flatMap (fun t => List.replicate (t.SystemUsers.count u.Id) t) } := by
    intro ts
    induction ts with
    | nil => intro u; simp [JCUser.addTags]
    | cons t rest ih =>
      intro u
      have hstep : u.addTags (t :: rest) =
          JCUser.addTags
            { u with tags := u.tags ++ List.replicate (t.SystemUsers.count u.Id) t } rest := by
        simp only [JCUser.addTags, List.foldl_cons]
        rw [addTags_inner]
      rw [hstep, ih]
      simp [List.flatMap_cons, List.append_assoc]
  have hcount : ∀ (t : JCTag) (ts : List JCTag),
      (ts.flatMap (fun t2 => List.replicate (t2.SystemUsers.count user.Id) t2)).count t =
        ts.count t * t.SystemUsers.count user.Id := by
    intro t ts
    induction ts with
    | nil => simp
    | cons t2 rest ih =>
      rw [List.flatMap_cons, List.count_append, ih, List.count_replicate, List.count_cons]
      by_cases h : t2 = t
      · subst h
        simp [Nat.add_mul, Nat.add_comm]
      · have h2 : ¬ (t2 == t) = true := by simpa using h
        simp [h2]
  have hall : ∀ t : JCTag, (user.addTags tags).tags.count t =
      user.tags.count t + tags.count t * t.SystemUsers.count user.Id := by
    intro t
    rw [key, List.count_append, hcount]
  refine ⟨by rw [key], by rw [key], hall, ?_, by decide⟩
  intro t ht
  rw [hall t, List.count_eq_zero_of_not_mem ht]
  simp

/-- C5: `extractStringArray` on a slice of strings returns exactly those strings, in
order and of the same length; on a slice with an element that is not a string the type
assertion fails and there is no result; so a result `out` is returned exactly when the
input is the strings of `out`. -/
theorem extractStringArray_strict (jc : JCAPI) :
    (∀ strs : List String,
      jc.extractStringArray (strs.map GoAny.string) = some strs ∧
      (∀ out, jc.extractStringArray (strs.map GoAny.string) = some out →
        out.length = (strs.map GoAny.string).length)) ∧
    (∀ input : List GoAny, (∃ x, x ∈ input ∧ ∀ s, x ≠ GoAny.string s) →
      jc.extractStringArray input = none) ∧
    (∀ (input : List GoAny) (out : List String),
      jc.extractStringArray input = some out ↔ input = out.map GoAny.string) := by
  have h1 : ∀ strs : List String, jc.extractStringArray (strs.map GoAny.string) = some strs := by
    intro strs
    simpa [JCAPI.extractStringArray] using extract_loop_strings strs []
  have h2 : ∀ input : List GoAny, (∃ x, x ∈ input ∧ ∀ s, x ≠ GoAny.string s) →
      jc.extractStringArray input = none := by
    intro input h
    exact extract_loop_fails input [] h
  refine ⟨?_, h2, ?_⟩
  · intro strs
    refine ⟨h1 strs, ?_⟩
    intro out hout
    rw [h1 strs] at hout
    cases hout
    simp
  · intro input out
    constructor
    · intro h
      by_cases hall : ∃ x, x ∈ input ∧ ∀ s, x ≠ GoAny.string s
      · rw [h2 input hall] at h
        cases h
      · have hstr : ∀ x, x ∈ input → ∃ s, x = GoAny.string s := by
          intro x hx
          by_contra hc
          exact hall ⟨x, hx, fun s hs => hc ⟨s, hs⟩⟩
        have hmap : ∃ strs : List String, input = strs.map GoAny.string := by
          clear h hall
          induction input with
          | nil => exact ⟨[], rfl⟩
          | cons y rest ih =>
            obtain ⟨s, hs⟩ := hstr y (List.mem_cons_self _ _)
            obtain ⟨strs, hrest⟩ := ih (fun x hx => hstr x (List.mem_cons_of_mem _ hx))
            exact ⟨s :: strs, by simp [hs, hrest]⟩
        obtain ⟨strs, hstrs⟩ := hmap
        rw [hstrs, h1 strs] at h
        cases h
        exact hstrs
    · intro h
      rw [h]
      exact h1 out

/-- C6: `getStringOrNil` returns `s` on the string `s` and the empty string on every
other value, nil included; `getUint16OrNil` returns `n` on the `uint16` value `n` and 0
on every other value, nil included; both are total. -/
theorem scalar_extraction_lenient :
    (∀ s : String, getStringOrNil (GoAny.string s) = s) ∧
    (∀ v : GoAny, (∀ s, v ≠ GoAny.string s) → getStringOrNil v = "") ∧
    getStringOrNil GoAny.nil = "" ∧
    (∀ n : Uint16, getUint16OrNil (GoAny.uint16 n) = n) ∧
    (∀ v : GoAny, (∀ n, v ≠ GoAny.uint16 n) → getUint16OrNil v = 0) ∧
    getUint16OrNil GoAny.nil = 0 := by
  refine ⟨fun _ => rfl, ?_, rfl, fun _ => rfl, ?_, rfl⟩
  · intro v hv
    cases v <;> first | rfl | exact absurd rfl (hv _)
  · intro v hv
    cases v <;> first | rfl | exact absurd rfl (hv _)

/-- C8: `buildJSONKeyValueBoolPair(k, b)` is `"k":"true"` when `b` is true and
`"k":"false"` when `b` is false, that is `buildJSONKeyValuePair(k, "true")` or
`buildJSONKeyValuePair(k, "false")`; it is never the key followed by the bare literal
`true` or `false`. -/
theorem buildJSONKeyValueBoolPair_quoted (key : String) (value : Bool) :
    buildJSONKeyValueBoolPair key true = "\"" ++ key ++ "\":\"true\"" ∧
    buildJSONKeyValueBoolPair key false = "\"" ++ key ++ "\":\"false\"" ∧
    buildJSONKeyValueBoolPair key true = buildJSONKeyValuePair key "true" ∧
    buildJSONKeyValueBoolPair key false = buildJSONKeyValuePair key "false" ∧
    buildJSONKeyValueBoolPair key value ≠ "\"" ++ key ++ "\":" ++ "true" ∧
    buildJSONKeyValueBoolPair key value ≠ "\"" ++ key ++ "\":" ++ "false" := by
  refine ⟨rfl, rfl, ?_, ?_, ?_, ?_⟩
  · apply String.ext
    simp [buildJSONKeyValueBoolPair, buildJSONKeyValuePair]
  · apply String.ext
    simp [buildJSONKeyValueBoolPair, buildJSONKeyValuePair]
  · intro h
    have h2 := congrArg String.data h
    cases value <;> simp [buildJSONKeyValueBoolPair] at h2
  · intro h
    have h2 := congrArg String.data h
    cases value <;> simp [buildJSONKeyValueBoolPair] at h2

/-- C9: `buildJSONStringArray(f, s)` is the text `"f":[`, then the elements of `s` in
order, each between double quotes and unchanged, with one comma between neighbours and
none in front or behind, then `]`; a nil slice and an empty slice both give `"f":[]`;
for `n >= 1` elements the text has `n - 1` commas besides those of `f` and of the
elements. -/
theorem buildJSONStringArray_spec (field : String) (vals : List String) :
    buildJSONStringArray field (some vals) =
      "\"" ++ field ++ "\":[" ++
        String.intercalate "," (vals.map fun v => "\"" ++ v ++ "\"") ++ "]" ∧
    buildJSONStringArray field none = "\"" ++ field ++ "\":[]" ∧
    buildJSONStringArray field (some []) = "\"" ++ field ++ "\":[]" ∧
    (1 ≤ vals.length →
      (buildJSONStringArray field (some vals)).data.count ',' =
        field.data.count ',' + (vals.map fun v => v.data.count ',').sum +
          (vals.length - 1)) ∧
    buildJSONStringArray "f" (some ["a", "b", "c"]) = "\"f\":[\"a\",\"b\",\"c\"]" := by
  have hmain : buildJSONStringArray field (some vals) =
      "\"" ++ field ++ "\":[" ++
        String.intercalate "," (vals.map fun v => "\"" ++ v ++ "\"") ++ "]" := by
    simp only [buildJSONStringArray]
    rw [build_loop]
    apply String.ext
    simp [String.data_append]
  refine ⟨hmain, ?_, ?_, ?_, by decide⟩
  · apply String.ext
    simp [buildJSONStringArray, String.data_append]
  · apply String.ext
    simp [buildJSONStringArray, String.data_append]
  · intro hlen
    rw [hmain]
    cases vals with
    | nil => simp at hlen
    | cons v rest =>
      simp only [List.map_cons, String.intercalate]
      simp only [String.data_append, List.count_append]
      rw [intercalate_go_commas]
      simp [String.data_append, List.count_append, List.map_map, Function.comp_def]
      omega

/-- C2: when the request is built and the transport returns a response whose status `s`
is not "200 OK", `do` returns the nil value and the error "JumpCloud HTTP response
status='s'", whatever the body of the response and whatever the JSON decoder; when the
status is "200 OK" no error of `do` is a status error. -/
theorem do_status {ρ : Type} (net : HTTP ρ) (jc : JCAPI) (op url : String) (data : List Nat)
    (req : ρ) (resp : Response)
    (hreq : net.NewRequest op (jc.UrlBase ++ url) data = Except.ok req)
    (hdo : net.Do (jc.setHeader net req) = Except.ok resp) :
    (resp.Status ≠ "200 OK" →
      jc.do_ net op url data =
        (GoAny.nil, some ("JumpCloud HTTP response status='" ++ resp.Status ++ "'")) ∧
      ∀ (body : Except String (List Nat)) (unmarshal : List Nat → GoAny × Option String),
        jc.do_
            { NewRequest := net.NewRequest
              HeaderSet := net.HeaderSet
              Do := fun r => (net.Do r).map fun x => { Status := x.Status, Body := body }
              Unmarshal := unmarshal } op url data =
          jc.do_ net op url data) ∧
    (resp.Status = "200 OK" →
      ∀ s : String, (jc.do_ net op url data).2 ≠
        some ("JumpCloud HTTP response status='" ++ s ++ "'")) := by
  constructor
  · intro hs
    have h1 : jc.do_ net op url data =
        (GoAny.nil, some ("JumpCloud HTTP response status='" ++ resp.Status ++ "'")) := by
      simp only [JCAPI.do_, hreq, hdo, ne_eq, hs, not_false_eq_true, if_true, sprintf_status]
    refine ⟨h1, ?_⟩
    intro body unmarshal
    rw [h1]
    have hset : ∀ (d : ρ → Except String Response) (u : List Nat → GoAny × Option String)
        (r : ρ), JCAPI.setHeader
          { NewRequest := net.NewRequest, HeaderSet := net.HeaderSet, Do := d, Unmarshal := u }
          jc r = jc.setHeader net r := fun _ _ _ => rfl
    simp only [JCAPI.do_, hreq, hset, hdo, Except.map, ne_eq, hs, not_false_eq_true, if_true,
      sprintf_status]
  · intro hs s
    simp only [JCAPI.do_, hreq, hdo, hs, ne_eq, not_true_eq_false, if_false]
    cases resp.Body with
    | error err =>
      simp only [ne_eq, Option.some.injEq]
      exact sprintf_error_ne_status _ _ s
    | ok buffer =>
      simp only
      rcases hu : net.Unmarshal buffer with ⟨val, err⟩
      cases err with
      | none => simp
      | some e =>
        simp only [ne_eq, Option.some.injEq]
        exact sprintf_error_ne_status _ _ s

/-- C7: `emailFilter(e)` is the bytes of the text `{"filter": [{"email" : "`, then the
bytes of `e` unchanged, then the bytes of `"}]}`; `emailFilter("a@b.com")` is byte for
byte `{"filter": [{"email" : "a@b.com"}]}`; the result is the same for every client. -/
theorem emailFilter_bytes (jc : JCAPI) (email : String) :
    jc.emailFilter email =
      toBytes "\x7b\"filter\": [\x7b\"email\" : \"" ++ toBytes email ++ toBytes "\"\x7d]\x7d" ∧
    jc.emailFilter "a@b.com" = toBytes "\x7b\"filter\": [\x7b\"email\" : \"a@b.com\"\x7d]\x7d" ∧
    jc.emailFilter "a@b.com" =
      [123, 34, 102, 105, 108, 116, 101, 114, 34, 58, 32, 91, 123, 34, 101, 109, 97, 105,
        108, 34, 32, 58, 32, 34, 97, 64, 98, 46, 99, 111, 109, 34, 125, 93, 125] ∧
    (∀ jc2 : JCAPI, jc2.emailFilter email = jc.emailFilter email) := by
  refine ⟨?_, by unfold JCAPI.emailFilter; decide, by unfold JCAPI.emailFilter; decide,
    fun _ => rfl⟩
  simp only [JCAPI.emailFilter]
  rw [sprintf_emailFilter, toBytes_append, toBytes_append]

/-- C10: on every value JSON decoding can produce (null, a boolean, a number as
`float64`, a string, an array, an object) and on every value inside it `getUint16OrNil`
returns 0; so, with a decoder that produces such values, it returns 0 on every value
contained in what `do` returns. -/
theorem getUint16OrNil_of_do {ρ : Type} (net : HTTP ρ)
    (hnet : ∀ buffer, JSONDecoded (net.Unmarshal buffer).1)
    (jc : JCAPI) (op url : String) (data : List Nat) :
    (∀ w, Contains (jc.do_ net op url data).1 w → getUint16OrNil w = 0) ∧
    (∀ v, JSONDecoded v → getUint16OrNil v = 0 ∧ ∀ w, Contains v w → getUint16OrNil w = 0) := by
  constructor
  · intro w hw
    have hv : JSONDecoded (jc.do_ net op url data).1 := by
      rcases do_value net jc op url data with h | ⟨buffer, h⟩
      · rw [h]; exact JSONDecoded.null
      · rw [h]; exact hnet buffer
    exact getUint16OrNil_decoded (JSONDecoded.of_contains hw hv)
  · intro v hv
    exact ⟨getUint16OrNil_decoded hv,
      fun w hw => getUint16OrNil_decoded (JSONDecoded.of_contains hw hv)⟩

/-- C4: for every list of results, whenever `writeResultsToCSV` returns no error the
records it has written are the header record, then, for each result in order and each
piece of its output split on newlines whose trimmed form is not empty, the record of the
system identifier, the trimmed line, an empty field and the request time, and nothing
else; over a writer whose writes do not fail it returns no error; the number of data rows
is the number of output lines, over all results, that are not empty once trimmed. The
result with system "S1", time "2024-01-01T00:00:00Z" and output "line1\n\nline2  \n" gives
the header and the two rows for line1 and line2, as records and as CSV text. -/
theorem writeResultsToCSV_records {σ : Type} (W : CSVWriter σ) (recs : σ → List (List String))
    (hW : ∀ w r, (W.Write w r).2 = none → recs (W.Write w r).1 = recs w ++ [r])
    (hF : ∀ w, recs (W.Flush w) = recs w)
    (results : List JCCommandResult) (w : σ) :
    ((writeResultsToCSV W results w).2 = none →
      recs (writeResultsToCSV W results w).1 =
        recs w ++
          ["SYSTEM ID", "USERNAME", "JUMPCLOUD USERNAME", "COMMAND REQUEST TIME"] ::
            results.flatMap rowsOfResult) ∧
    ((∀ w r, (W.Write w r).2 = none) → (writeResultsToCSV W results w).2 = none) ∧
    (results.flatMap rowsOfResult).length =
      (results.map fun result =>
        (Split result.Response.Data.Output '\n').countP fun line => TrimSpace line ≠ "").sum ∧
    writeResultsToCSV recordWriter [exampleResult] [] =
      ([["SYSTEM ID", "USERNAME", "JUMPCLOUD USERNAME", "COMMAND REQUEST TIME"],
        ["S1", "line1", "", "2024-01-01T00:00:00Z"],
        ["S1", "line2", "", "2024-01-01T00:00:00Z"]], none) ∧
    writeResultsToCSV textWriter [exampleResult] "" =
      ("SYSTEM ID,USERNAME,JUMPCLOUD USERNAME,COMMAND REQUEST TIME\n" ++
        "S1,line1,,2024-01-01T00:00:00Z\n" ++ "S1,line2,,2024-01-01T00:00:00Z\n", none) := by
  refine ⟨?_, ?_, ?_, by decide, by decide⟩
  · intro hok
    have hr := hW w csvHeader
    simp only [writeResultsToCSV] at hok ⊢
    rcases hwr : W.Write w csvHeader with ⟨w2, err⟩
    rw [hwr] at hok hr
    cases err with
    | some e => simp at hok
    | none =>
      simp only at hok hr ⊢
      rw [writeResults_records W recs hW hF results (W.Flush w2) hok, hF, hr trivial]
      simp [csvHeader]
  · intro hS
    have hs := hS w csvHeader
    simp only [writeResultsToCSV]
    rcases hwr : W.Write w csvHeader with ⟨w2, err⟩
    rw [hwr] at hs
    simp only at hs
    subst hs
    exact writeResults_ok W hS results (W.Flush w2)
  · rw [List.length_flatMap]
    congr 1
    apply List.map_congr_left
    intro result _
    simp [rowsOfResult, List.countP_eq_length_filter, List.filter_map, Function.comp_def]

/-! ## Instances of the claims at concrete inputs -/

/-- C2 at a transport answering "404 Not Found": the status error, with the nil value. -/
theorem do_status_witness :
    (stubNet "404 Not Found" [1, 2]).NewRequest "GET" (stubClient.UrlBase ++ "/systemusers") [] =
      Except.ok { Method := "GET", URL := "https://console.jumpcloud.com/api/systemusers",
                  Body := [], Header := [] } ∧
    "404 Not Found" ≠ "200 OK" ∧
    stubClient.do_ (stubNet "404 Not Found" [1, 2]) "GET" "/systemusers" [] =
      (GoAny.nil, some "JumpCloud HTTP response status='404 Not Found'") :=
  ⟨rfl, by decide,
    ((do_status (stubNet "404 Not Found" [1, 2]) stubClient "GET" "/systemusers" []
      { Method := "GET", URL := "https://console.jumpcloud.com/api/systemusers",
        Body := [], Header := [] }
      { Status := "404 Not Found", Body := Except.ok [1, 2] } rfl rfl).1 (by decide)).1⟩

/-- C3 at a user listed twice by one tag and not at all by another. -/
theorem addTags_spec_witness :
    (JCUser.addTags { Id := "U1", tags := [] }
        [{ Id := "T1", SystemUsers := ["U1", "U2", "U1"] },
          { Id := "T2", SystemUsers := ["U3"] }]).tags =
      [] ++ [{ Id := "T1", SystemUsers := ["U1", "U2", "U1"] },
        { Id := "T2", SystemUsers := ["U3"] }].flatMap
          (fun t => List.replicate (t.SystemUsers.count "U1") t) ∧
    (JCUser.addTags { Id := "U1", tags := [] }
        [{ Id := "T1", SystemUsers := ["U1", "U2", "U1"] },
          { Id := "T2", SystemUsers := ["U3"] }]).tags =
      [{ Id := "T1", SystemUsers := ["U1", "U2", "U1"] },
        { Id := "T1", SystemUsers := ["U1", "U2", "U1"] }] :=
  ⟨(addTags_spec { Id := "U1", tags := [] }
      [{ Id := "T1", SystemUsers := ["U1", "U2", "U1"] },
        { Id := "T2", SystemUsers := ["U3"] }]).1, by decide⟩

/-- C4 at the writer that keeps its records and the result of the example. -/
theorem writeResultsToCSV_records_witness :
    (∀ (w : List (List String)) (r : List String),
      (recordWriter.Write w r).2 = none → (recordWriter.Write w r).1 = w ++ [r]) ∧
    (∀ w : List (List String), recordWriter.Flush w = w) ∧
    (writeResultsToCSV recordWriter [exampleResult] []).2 = none ∧
    (writeResultsToCSV recordWriter [exampleResult] []).1 =
      [] ++ ["SYSTEM ID", "USERNAME", "JUMPCLOUD USERNAME", "COMMAND REQUEST TIME"] ::
        [exampleResult].flatMap rowsOfResult ∧
    [exampleResult].flatMap rowsOfResult =
      [["S1", "line1", "", "2024-01-01T00:00:00Z"], ["S1", "line2", "", "2024-01-01T00:00:00Z"]] :=
  ⟨fun _ _ _ => rfl, fun _ => rfl,
    (writeResultsToCSV_records recordWriter (fun w => w) (fun _ _ _ => rfl) (fun _ => rfl)
      [exampleResult] []).2.1 (fun _ _ => rfl),
    (writeResultsToCSV_records recordWriter (fun w => w) (fun _ _ _ => rfl) (fun _ => rfl)
      [exampleResult] []).1 (by decide), by decide⟩

/-- C5 at a slice of two strings and at a slice whose second element is a number. -/
theorem extractStringArray_strict_witness :
    stubClient.extractStringArray [GoAny.string "a", GoAny.string "b"] = some ["a", "b"] ∧
    (∃ x, x ∈ [GoAny.string "a", GoAny.float64 0] ∧ ∀ s, x ≠ GoAny.string s) ∧
    stubClient.extractStringArray [GoAny.string "a", GoAny.float64 0] = none :=
  ⟨((extractStringArray_strict stubClient).1 ["a", "b"]).1,
    ⟨GoAny.float64 0, by simp, fun s h => by cases h⟩,
    (extractStringArray_strict stubClient).2.1 [GoAny.string "a", GoAny.float64 0]
      ⟨GoAny.float64 0, by simp, fun s h => by cases h⟩⟩

/-- C6 at a number of type `float64` and at a `uint16`. -/
theorem scalar_extraction_lenient_witness :
    getStringOrNil (GoAny.float64 7) = "" ∧ getUint16OrNil (GoAny.string "7") = 0 ∧
    getUint16OrNil (GoAny.uint16 7) = 7 ∧ getStringOrNil (GoAny.string "x") = "x" :=
  ⟨scalar_extraction_lenient.2.1 (GoAny.float64 7) (fun s h => by cases h),
    scalar_extraction_lenient.2.2.2.2.1 (GoAny.string "7") (fun n h => by cases h),
    scalar_extraction_lenient.2.2.2.1 7, scalar_extraction_lenient.1 "x"⟩

/-- C9 at a slice of two elements, one of them with a comma of its own. -/
theorem buildJSONStringArray_spec_witness :
    1 ≤ ["a,b", "c"].length ∧
    (buildJSONStringArray "f" (some ["a,b", "c"])).data.count ',' =
      "f".data.count ',' + (["a,b", "c"].map fun v => v.data.count ',').sum +
        (["a,b", "c"].length - 1) ∧
    buildJSONStringArray "f" (some ["a,b", "c"]) = "\"f\":[\"a,b\",\"c\"]" :=
  ⟨by decide, (buildJSONStringArray_spec "f" ["a,b", "c"]).2.2.2.1 (by decide), by decide⟩

/-- C10 at a transport answering "200 OK" with the body `{"n":2}`: `do` returns the
decoded object and `getUint16OrNil` is 0 on the number inside it. -/
theorem getUint16OrNil_of_do_witness :
    (∀ buffer, JSONDecoded ((stubNet "200 OK" (toBytes "\x7b\"n\":2\x7d")).Unmarshal buffer).1) ∧
    stubClient.do_ (stubNet "200 OK" (toBytes "\x7b\"n\":2\x7d")) "GET" "/systems" [] =
      (GoAny.map [("n", GoAny.float64 0x4000000000000000)], none) ∧
    getUint16OrNil (GoAny.float64 0x4000000000000000) = 0 :=
  have hnet : ∀ buffer,
      JSONDecoded ((stubNet "200 OK" (toBytes "\x7b\"n\":2\x7d")).Unmarshal buffer).1 := by
    intro buffer
    simp only [stubNet]
    split
    · refine JSONDecoded.object _ ?_
      intro kv hkv
      simp only [List.mem_singleton] at hkv
      subst hkv
      exact JSONDecoded.number _
    · exact JSONDecoded.null
  have hdo : stubClient.do_ (stubNet "200 OK" (toBytes "\x7b\"n\":2\x7d")) "GET" "/systems" [] =
      (GoAny.map [("n", GoAny.float64 0x4000000000000000)], none) := by
    simp [JCAPI.do_, stubNet]
  ⟨hnet, hdo,
    (getUint16OrNil_of_do (stubNet "200 OK" (toBytes "\x7b\"n\":2\x7d")) hnet stubClient
      "GET" "/systems" []).1 (GoAny.float64 0x4000000000000000)
      (by
        rw [hdo]
        exact Contains.value _ ("n", GoAny.float64 0x4000000000000000) _
          (List.mem_singleton.mpr rfl) (Contains.self _))⟩

end jcapi
